import Mathlib

/-!
Verification development for the validator state machine of
`zerok_lib/src/state.rs` (UTXO-style confidential-asset ledger).

Shallow embedding conventions:
* Opaque cryptographic values (nullifiers, set hashes, node values, record
  commitments, digests) are modelled as `Nat`.
* The external cryptosystem calls whose behaviour the validator only observes
  through their results (`SetMerkleProof::check`, `set_merkle_lw_multi_insert`,
  `txn_batch_verify`) are fields of a `CryptoEnv` parameter; theorems quantify
  over every environment, and `defaultEnv` provides a concrete executable
  instance for witnesses.
* `Vec`/`VecDeque` are Lean lists; for the `VecDeque` history the list head is
  the deque front.
-/

deriving instance DecidableEq for Except

/-- One mixing step of the modelled digest builder. -/
def hashStep (h x : Nat) : Nat := h * 1000003 + x + 1

/-- Modelled digest: fold the labelled field values over a domain tag.
Stands in for `commit::RawCommitmentBuilder` (domain-separated hashing). -/
def hashList (tag : Nat) (l : List Nat) : Nat := l.foldl hashStep tag

/-- `key_set::SizedKey`: a verifying key exposing `num_inputs`/`num_outputs`;
the key material itself is opaque (`tag`). -/
structure SizedVKey where
  num_inputs : Nat
  num_outputs : Nat
  tag : Nat
deriving DecidableEq

/-- `KeyOrder::SortKey = (usize, usize)` with the lexicographic `Ord` of Rust
tuples. -/
abbrev SK := Nat × Nat

/-- Lexicographic `<=` on sort keys (Rust's derived tuple ordering). -/
def skLe (a b : SK) : Bool := decide (a.1 < b.1 ∨ (a.1 = b.1 ∧ a.2 ≤ b.2))

/-- Lexicographic `<` on sort keys (Rust's derived tuple ordering). -/
def skLt (a b : SK) : Bool := decide (a.1 < b.1 ∨ (a.1 = b.1 ∧ a.2 < b.2))

/-- `key_set::OrderByInputs::sort_key`. -/
def orderByInputs (num_inputs num_outputs : Nat) : SK := (num_inputs, num_outputs)

/-- `key_set::OrderByOutputs::sort_key`. -/
def orderByOutputs (num_inputs num_outputs : Nat) : SK := (num_outputs, num_inputs)

/-- `key_set::Error`. -/
inductive KeySetError where
  | DuplicateKeys (num_inputs num_outputs : Nat)
  | NoKeys
deriving DecidableEq

/-- The contents of `BTreeMap<SortKey, K>`: an association list kept strictly
ascending in the sort key (the map's iteration order). -/
abbrev KSMap := List (SK × SizedVKey)

/-- `BTreeMap::contains_key`. -/
def ksContains (sk : SK) (l : KSMap) : Bool := l.any (fun p => p.1 == sk)

/-- `BTreeMap::insert` for a key not already present: place the entry at its
sorted position. -/
def ksInsert (sk : SK) (k : SizedVKey) : KSMap → KSMap
  | [] => [(sk, k)]
  | p :: rest => if skLt sk p.1 then (sk, k) :: p :: rest else p :: ksInsert sk k rest

/-- `key_set::KeySet`: a size-indexed container of keys.  The `Order` type
parameter of the Rust type is passed explicitly to each operation as the
`ord` function. -/
structure KeySet where
  keys : KSMap
deriving DecidableEq

/-- The loop of `KeySet::new`: fold the iterator into the map, rejecting
duplicate sort keys. -/
def KeySet.newAux (ord : Nat → Nat → SK) : List SizedVKey → KSMap → Except KeySetError KSMap
  | [], acc => .ok acc
  | k :: rest, acc =>
    let sk := ord k.num_inputs k.num_outputs
    if ksContains sk acc then .error (.DuplicateKeys k.num_inputs k.num_outputs)
    else KeySet.newAux ord rest (ksInsert sk k acc)

/-- `KeySet::new`: requires at least one key and no duplicate size keys. -/
def KeySet.new (ord : Nat → Nat → SK) (ks : List SizedVKey) : Except KeySetError KeySet :=
  match KeySet.newAux ord ks [] with
  | .error e => .error e
  | .ok m => if m.isEmpty then .error .NoKeys else .ok ⟨m⟩

/-- `KeySet::max_size`: the arity of the entry with the largest sort key
(`iter().next_back()`).  The source panics on an empty set, which `new`
disallows; here the empty case returns a junk value. -/
def KeySet.max_size (ks : KeySet) : Nat × Nat :=
  match ks.keys.getLast? with
  | some p => (p.2.num_inputs, p.2.num_outputs)
  | none => (0, 0)

/-- `KeySet::key_for_size`: exact lookup by sort key. -/
def KeySet.key_for_size (ord : Nat → Nat → SK) (ks : KeySet) (num_inputs num_outputs : Nat) :
    Option SizedVKey :=
  (ks.keys.find? (fun p => p.1 == ord num_inputs num_outputs)).map (fun p => p.2)

/-- `KeySet::best_fit_key`: the first map entry in `range(Included req, Unbounded)`,
i.e. the smallest sort key that is `>=` the requested one; on miss the error
carries `max_size()`. -/
def KeySet.best_fit_key (ord : Nat → Nat → SK) (ks : KeySet) (num_inputs num_outputs : Nat) :
    Except (Nat × Nat) (Nat × Nat × SizedVKey) :=
  match ks.keys.find? (fun p => skLe (ord num_inputs num_outputs) p.1) with
  | some p => .ok (p.2.num_inputs, p.2.num_outputs, p.2)
  | none => .error ks.max_size

/-- Modelled from the spec: a jf_aap `MintNote` (fixed arity: one input
nullifier, two output commitments, a declared Merkle root; the embedded
zero-knowledge proof is opaque). -/
structure MintNote where
  input_nullifier : Nat
  chg_comm : Nat
  mint_comm : Nat
  merkle_root : Nat
deriving DecidableEq

/-- Modelled from the spec: a jf_aap `TransferNote` (variable arity). -/
structure TransferNote where
  inputs_nullifiers : List Nat
  output_commitments : List Nat
  merkle_root : Nat
  aux : Nat
deriving DecidableEq

/-- Modelled from the spec: a jf_aap `FreezeNote` (variable arity). -/
structure FreezeNote where
  input_nullifiers : List Nat
  output_commitments : List Nat
  merkle_root : Nat
  aux : Nat
deriving DecidableEq

/-- jf_aap `TransactionNote`: mint, transfer or freeze. -/
inductive TransactionNote where
  | Mint (m : MintNote)
  | Transfer (t : TransferNote)
  | Freeze (f : FreezeNote)
deriving DecidableEq

/-- Modelled from the spec: `TransactionNote::nullifiers()` — the input
nullifiers, in declaration order (a mint has exactly one). -/
def TransactionNote.nullifiers : TransactionNote → List Nat
  | .Mint m => [m.input_nullifier]
  | .Transfer t => t.inputs_nullifiers
  | .Freeze f => f.input_nullifiers

/-- Modelled from the spec: `TransactionNote::output_commitments()` — the
output record commitments, in declaration order (a mint has exactly two). -/
def TransactionNote.output_commitments : TransactionNote → List Nat
  | .Mint m => [m.chg_comm, m.mint_comm]
  | .Transfer t => t.output_commitments
  | .Freeze f => f.output_commitments

/-- Modelled from the spec: `TransactionNote::merkle_root()` — the record-tree
root the prover used. -/
def TransactionNote.merkle_root : TransactionNote → Nat
  | .Mint m => m.merkle_root
  | .Transfer t => t.merkle_root
  | .Freeze f => f.merkle_root

/-- Modelled from the spec: the per-note commitment digest (opaque, from the
cryptosystem). -/
def TransactionNote.commit : TransactionNote → Nat
  | .Mint m => hashList 11 [m.input_nullifier, m.chg_comm, m.mint_comm, m.merkle_root]
  | .Transfer t =>
    hashList 12 (t.merkle_root :: t.aux :: t.inputs_nullifiers.length ::
      (t.inputs_nullifiers ++ t.output_commitments))
  | .Freeze f =>
    hashList 13 (f.merkle_root :: f.aux :: f.input_nullifiers.length ::
      (f.input_nullifiers ++ f.output_commitments))

/-- `Block(pub Vec<TransactionNote>)`. -/
structure Block where
  notes : List TransactionNote
deriving DecidableEq

/-- `impl Committable for Block`: hash over domain `"Block Comm"` and the
array of per-note commitments in block order. -/
def Block.commit (b : Block) : Nat :=
  hashList 14 (b.notes.map TransactionNote.commit)

/-- jf_aap `MerkleCommitment`: `{height, num_leaves, root_value}`. -/
structure MerkleCommitment where
  height : Nat
  num_leaves : Nat
  root_value : Nat
deriving DecidableEq

/-- jf_aap `MerkleFrontier`: empty-at-height or a proof for the last leaf. -/
inductive MerkleFrontier where
  | Empty (height : Nat)
  | Proof (leaf : Nat) (path : List Nat)
deriving DecidableEq

/-- Modelled from the spec: the record Merkle tree of the external Merkle
library, reduced to the data the validator observes (height, leaf count, an
accumulated digest standing for the root, and the last appended leaf). -/
structure MerkleTree where
  height : Nat
  numLeaves : Nat
  acc : Nat
  lastLeaf : Nat
deriving DecidableEq

/-- Modelled from the spec: `MerkleTree::push` appends a leaf; `num_leaves`
grows by one (the library invariant of section 4.D). -/
def MerkleTree.push (t : MerkleTree) (leaf : Nat) : MerkleTree :=
  { t with numLeaves := t.numLeaves + 1, acc := hashStep t.acc leaf, lastLeaf := leaf }

/-- Modelled from the spec: `MerkleTree::forget(uid)` drops auxiliary data for
an interior leaf; it changes neither the commitment nor the leaf count. -/
def MerkleTree.forget (t : MerkleTree) (_uid : Nat) : MerkleTree := t

/-- Modelled from the spec: `MerkleTree::commitment()`. -/
def MerkleTree.commitment (t : MerkleTree) : MerkleCommitment :=
  { height := t.height, num_leaves := t.numLeaves, root_value := t.acc }

/-- Modelled from the spec: `MerkleTree::frontier()` — the minimal data needed
to append the next leaf. -/
def MerkleTree.frontier (t : MerkleTree) : MerkleFrontier :=
  if t.numLeaves == 0 then .Empty t.height
  else .Proof t.lastLeaf (List.replicate t.height t.acc)

/-- Modelled from the spec: `MerkleTree::restore_from_frontier` rebuilds a
sparse tree sufficient for appending; it fails (`None`, surfaced by the caller
as `BadMerklePath`) when the frontier is inconsistent with the commitment —
an empty frontier against a nonzero leaf count, a leaf proof against a zero
leaf count, or a path of the wrong length. -/
def MerkleTree.restore_from_frontier (c : MerkleCommitment) (f : MerkleFrontier) :
    Option MerkleTree :=
  match f with
  | .Empty h =>
    if c.num_leaves == 0 && c.height == h then
      some { height := c.height, numLeaves := 0, acc := c.root_value, lastLeaf := 0 }
    else none
  | .Proof leaf path =>
    if c.num_leaves != 0 && path.length == c.height then
      some { height := c.height, numLeaves := c.num_leaves, acc := c.root_value,
             lastLeaf := leaf }
    else none

/-- `VerifierKeySet`: the mint key plus size-indexed transfer and freeze key
sets (the validator instantiates the default `OrderByInputs` order). -/
structure VerifierKeySet where
  mint : SizedVKey
  xfr : KeySet
  freeze : KeySet
deriving DecidableEq

/-- `impl Committable for VerifierKeySet`: hash over the canonical encoding. -/
def VerifierKeySet.commit (v : VerifierKeySet) : Nat :=
  hashList 15
    ([v.mint.num_inputs, v.mint.num_outputs, v.mint.tag] ++
      (v.xfr.keys ++ v.freeze.keys).flatMap
        (fun p => [p.1.1, p.1.2, p.2.num_inputs, p.2.num_outputs, p.2.tag]))

/-- The payload of `ValidationError::CryptoError`: Rust's
`Result<TxnApiError, String>` (`TxnApiError` is opaque). -/
inductive CryptoErrPayload where
  | Ok (e : Nat)
  | Err (s : String)
deriving DecidableEq

/-- `ValidationError` (state.rs). -/
inductive ValidationError where
  | NullifierAlreadyExists (nullifier : Nat)
  | BadNullifierProof
  | MissingNullifierProof
  | ConflictingNullifiers
  | Failed
  | BadMerkleLength
  | BadMerkleLeaf
  | BadMerkleRoot
  | BadMerklePath
  | CryptoError (err : CryptoErrPayload)
  | UnsupportedTransferSize (num_inputs num_outputs : Nat)
  | UnsupportedFreezeSize (num_inputs : Nat)
deriving DecidableEq

/-- `impl Clone for ValidationError`: `TxnApiError` is not `Clone`, so the
`CryptoError` variant clones to `Failed`; every other variant is copied. -/
def ValidationError.clone : ValidationError → ValidationError
  | .NullifierAlreadyExists nullifier => .NullifierAlreadyExists nullifier
  | .BadNullifierProof => .BadNullifierProof
  | .MissingNullifierProof => .MissingNullifierProof
  | .ConflictingNullifiers => .ConflictingNullifiers
  | .Failed => .Failed
  | .BadMerkleLength => .BadMerkleLength
  | .BadMerkleLeaf => .BadMerkleLeaf
  | .BadMerkleRoot => .BadMerkleRoot
  | .BadMerklePath => .BadMerklePath
  | .CryptoError _ => .Failed
  | .UnsupportedTransferSize num_inputs num_outputs =>
      .UnsupportedTransferSize num_inputs num_outputs
  | .UnsupportedFreezeSize num_inputs => .UnsupportedFreezeSize num_inputs

/-- A nullifier non-membership proof (opaque to the validator). -/
abbrev SetMerkleProof := Nat

/-- The external calls the validator makes, abstracted as an environment:
`SetMerkleProof::check` and `set_merkle_lw_multi_insert` (the sparse
nullifier set of `set_merkle_tree`, not part of the provided sources) and
jf_aap's `txn_batch_verify`.  Theorems quantify over every environment. -/
structure CryptoEnv where
  checkPf : SetMerkleProof → Nat → Nat → Except Unit Bool
  multiInsert : List (Nat × SetMerkleProof) → Nat → Except Unit (Nat × List SetMerkleProof)
  batchVerify : List TransactionNote → List Nat → Nat → List SizedVKey → Except Nat Unit

/-- A concrete executable environment used for witnesses: every proof checks
as valid non-membership, inserts succeed, batch verification succeeds. -/
def defaultEnv : CryptoEnv :=
  { checkPf := fun _ _ _ => .ok false
    multiInsert := fun ps r => .ok (hashList 16 (r :: ps.map Prod.fst), ps.map Prod.snd)
    batchVerify := fun _ _ _ _ => .ok () }

/-- `ValidatorState` (the eight committed fields; the `VecDeque` history is a
list, head = front = most recent). -/
structure ValidatorState where
  prev_commit_time : Nat
  prev_state : Option Nat
  verif_crs : VerifierKeySet
  record_merkle_commitment : MerkleCommitment
  record_merkle_frontier : MerkleFrontier
  past_record_merkle_roots : List Nat
  nullifiers_root : Nat
  prev_block : Nat
deriving DecidableEq

/-- `ValidatorState::RECORD_ROOT_HISTORY_SIZE`. -/
def RECORD_ROOT_HISTORY_SIZE : Nat := 10

/-- Modelled from the spec: the hash of the default (empty) sparse nullifier
set (`set_merkle_tree` is not part of the provided sources). -/
def emptySetHash : Nat := 0

/-- `ValidatorState::new`. -/
def ValidatorState.new (verif_crs : VerifierKeySet) (record_merkle_frontier : MerkleTree) :
    ValidatorState :=
  { prev_commit_time := 0
    prev_state := none
    verif_crs := verif_crs
    record_merkle_commitment := record_merkle_frontier.commitment
    record_merkle_frontier := record_merkle_frontier.frontier
    past_record_merkle_roots := []
    nullifiers_root := emptySetHash
    prev_block := Block.commit ⟨[]⟩ }

/-- `impl Committable for RecordMerkleCommitment`. -/
def RecordMerkleCommitment.commit (c : MerkleCommitment) : Nat :=
  hashList 17 [c.height, c.num_leaves, c.root_value]

/-- `impl Committable for RecordMerkleFrontier`. -/
def RecordMerkleFrontier.commit : MerkleFrontier → Nat
  | .Empty h => hashList 18 [0, h]
  | .Proof leaf path => hashList 18 (1 :: leaf :: path)

/-- `impl Committable for RecordMerkleHistory`: the queue length then each
root value, most-recent-first. -/
def RecordMerkleHistory.commit (l : List Nat) : Nat :=
  hashList 19 (l.length :: l)

/-- `ValidatorState::commit`: the `"Ledger Comm"` digest over the eight
labelled fields in the normative order (`prev_state` as an array of zero or
one sub-commitments). -/
def ValidatorState.commit (s : ValidatorState) : Nat :=
  hashList 20
    ([s.prev_commit_time] ++
      (match s.prev_state with
       | none => [0]
       | some c => [1, c]) ++
      [s.verif_crs.commit,
       RecordMerkleCommitment.commit s.record_merkle_commitment,
       RecordMerkleFrontier.commit s.record_merkle_frontier,
       RecordMerkleHistory.commit s.past_record_merkle_roots,
       s.nullifiers_root,
       s.prev_block])

/-- `impl PartialEq for ValidatorState`: equality is comparison of state
commitments. -/
def ValidatorState.beq (a b : ValidatorState) : Bool := a.commit == b.commit

/-- `impl Hash for ValidatorState`: hash the state commitment. -/
def ValidatorState.hashState (s : ValidatorState) : Nat := hashStep 0 s.commit

/-- `derive Clone` for `ValidatorState`: a clone is the same value. -/
def ValidatorState.clone (s : ValidatorState) : ValidatorState := s

/-- The flattened `(proof, nullifier)` pairs of `validate_block_check`:
`null_pfs.iter().zip(txns.0.iter()).flat_map(|(pfs, txn)| pfs.iter().zip(txn.nullifiers()))`.
Both zips silently truncate the longer side, exactly as in Rust. -/
def flattenPairs (null_pfs : List (List SetMerkleProof)) (notes : List TransactionNote) :
    List (SetMerkleProof × Nat) :=
  (null_pfs.zip notes).flatMap (fun pn => pn.1.zip pn.2.nullifiers)

/-- The duplicate-and-freshness loop of `validate_block_check`: `nulls` is the
local `seen` set.  `NullifierAlreadyExists` if seen locally or reported
present by the proof; proof-check errors surface as `BadNullifierProof`. -/
def checkNullifiers (env : CryptoEnv) (root : Nat) :
    List (SetMerkleProof × Nat) → List Nat → Except ValidationError Unit
  | [], _ => .ok ()
  | (pf, n) :: rest, nulls =>
    if nulls.contains n then .error (.NullifierAlreadyExists n)
    else
      match env.checkPf pf n root with
      | .error _ => .error .BadNullifierProof
      | .ok true => .error (.NullifierAlreadyExists n)
      | .ok false => checkNullifiers env root rest (n :: nulls)

/-- Verifying-key selection for one note (the `verif_keys` closure):
mint uses `verif_crs.mint`; transfer and freeze use `key_for_size` and fail
with `UnsupportedTransferSize` / `UnsupportedFreezeSize` (only inputs in the
freeze error). -/
def selectKey (s : ValidatorState) : TransactionNote → Except ValidationError SizedVKey
  | .Mint _ => .ok s.verif_crs.mint
  | .Transfer note =>
    let num_inputs := note.inputs_nullifiers.length
    let num_outputs := note.output_commitments.length
    match s.verif_crs.xfr.key_for_size orderByInputs num_inputs num_outputs with
    | some key => .ok key
    | none => .error (.UnsupportedTransferSize num_inputs num_outputs)
  | .Freeze note =>
    let num_inputs := note.input_nullifiers.length
    let num_outputs := note.output_commitments.length
    match s.verif_crs.freeze.key_for_size orderByInputs num_inputs num_outputs with
    | some key => .ok key
    | none => .error (.UnsupportedFreezeSize num_inputs)

/-- `collect::<Result<Vec<_>, _>>()` over `selectKey`: first error wins. -/
def selectKeys (s : ValidatorState) : List TransactionNote → Except ValidationError (List SizedVKey)
  | [] => .ok []
  | t :: rest =>
    match selectKey s t with
    | .error e => .error e
    | .ok k =>
      match selectKeys s rest with
      | .error e => .error e
      | .ok ks => .ok (k :: ks)

/-- The Merkle-root eligibility test of `validate_block_check`: the declared
root equals the current `record_merkle_commitment.root_value` or occurs in
`past_record_merkle_roots`. -/
def rootEligible (s : ValidatorState) (t : TransactionNote) : Bool :=
  s.record_merkle_commitment.root_value == t.merkle_root ||
    s.past_record_merkle_roots.contains t.merkle_root

/-- The per-note Merkle-root collection inside the batch-verify call:
eligible roots are collected, an ineligible one fails with `BadMerkleRoot`
(first error wins, as `collect::<Result<Vec<_>, _>>()`). -/
def computeRoots (s : ValidatorState) : List TransactionNote → Except ValidationError (List Nat)
  | [] => .ok []
  | t :: rest =>
    if rootEligible s t then
      match computeRoots s rest with
      | .error e => .error e
      | .ok rs => .ok (t.merkle_root :: rs)
    else .error .BadMerkleRoot

/-- `ValidatorState::validate_block_check`: pure, read-only validation in the
source order — nullifier freshness, verifying-key selection, then (for a
non-empty block) Merkle-root eligibility followed by batch verification,
whose failure surfaces as `CryptoError { err: Ok(err) }`. -/
def validate_block_check (env : CryptoEnv) (s : ValidatorState) (now : Nat) (txns : Block)
    (null_pfs : List (List SetMerkleProof)) :
    Except ValidationError (Block × List (List SetMerkleProof)) :=
  match checkNullifiers env s.nullifiers_root (flattenPairs null_pfs txns.notes) [] with
  | .error e => .error e
  | .ok () =>
    match selectKeys s txns.notes with
    | .error e => .error e
    | .ok verif_keys =>
      if txns.notes.isEmpty then .ok (txns, null_pfs)
      else
        match computeRoots s txns.notes with
        | .error e => .error e
        | .ok roots =>
          match env.batchVerify txns.notes roots now verif_keys with
          | .error err => .error (.CryptoError (.Ok err))
          | .ok () => .ok (txns, null_pfs)

/-- The output-append loop of `validate_and_apply`: push each output
commitment, forget the previous leaf when `uid > 0`, record the assigned
`uid`.  (The source's `assert_eq!(uid, num_leaves())` holds at every
iteration because `push` increments the leaf count and `uid` starts at the
restored tree's leaf count.) -/
def pushAll (tree : MerkleTree) (uid : Nat) : List Nat → MerkleTree × List Nat
  | [] => (tree, [])
  | o :: rest =>
    let tree1 := tree.push o
    let tree2 := if uid > 0 then tree1.forget (uid - 1) else tree1
    let res := pushAll tree2 (uid + 1) rest
    (res.1, uid :: res.2)

/-- The `(nullifier, proof)` pairs handed to `set_merkle_lw_multi_insert`:
`txns.0.iter().zip(null_pfs).flat_map(|(txn, pfs)| txn.nullifiers().zip(pfs))`. -/
def collectNullifiers (notes : List TransactionNote) (null_pfs : List (List SetMerkleProof)) :
    List (Nat × SetMerkleProof) :=
  (notes.zip null_pfs).flatMap (fun tp => tp.1.nullifiers.zip tp.2)

/-- `ValidatorState::validate_and_apply`.  The Rust receiver is `&mut self`;
the embedding returns the post-call state together with the result, so the
state returned on an error path is exactly the partially-updated `self`. -/
def validate_and_apply (env : CryptoEnv) (s : ValidatorState) (now : Nat) (txns : Block)
    (null_pfs : List (List SetMerkleProof)) :
    ValidatorState × Except ValidationError (List Nat) :=
  match validate_block_check env s now txns null_pfs with
  | .error e => (s, .error e)
  | .ok (txns, _null_pfs) =>
    let comm := s.commit
    let s1 := { s with prev_commit_time := now, prev_block := txns.commit }
    let nullifiers := collectNullifiers txns.notes null_pfs
    match env.multiInsert nullifiers s1.nullifiers_root with
    | .error _ => (s1, .error .BadNullifierProof)
    | .ok ins =>
      let s2 := { s1 with nullifiers_root := ins.1 }
      match MerkleTree.restore_from_frontier s2.record_merkle_commitment
          s2.record_merkle_frontier with
      | none => (s2, .error .BadMerklePath)
      | some tree =>
        let outs := txns.notes.flatMap TransactionNote.output_commitments
        let pushed := pushAll tree s2.record_merkle_commitment.num_leaves outs
        let hist :=
          if RECORD_ROOT_HISTORY_SIZE ≤ s2.past_record_merkle_roots.length then
            s2.past_record_merkle_roots.dropLast
          else s2.past_record_merkle_roots
        let s3 := { s2 with
          past_record_merkle_roots := s2.record_merkle_commitment.root_value :: hist,
          record_merkle_commitment := pushed.1.commitment,
          record_merkle_frontier := pushed.1.frontier,
          prev_state := some comm }
        (s3, .ok pushed.2)

/-- A concrete verifier key set for witnesses: transfer keys of sizes (1,1)
and (2,2), a freeze key of size (2,2). -/
def wVerifCRS : VerifierKeySet :=
  { mint := ⟨1, 2, 3⟩
    xfr := ⟨[((1, 1), ⟨1, 1, 5⟩), ((2, 2), ⟨2, 2, 6⟩)]⟩
    freeze := ⟨[((2, 2), ⟨2, 2, 7⟩)]⟩ }

/-- An empty record Merkle tree of height `MERKLE_HEIGHT = 20`. -/
def genesisTree : MerkleTree := { height := 20, numLeaves := 0, acc := 0, lastLeaf := 0 }

/-- A concrete genesis validator state. -/
def genesisState : ValidatorState := ValidatorState.new wVerifCRS genesisTree

/-- A corrupt validator state: the record Merkle commitment reports one leaf
while the frontier is the empty-tree frontier, so `restore_from_frontier`
fails. -/
def c1State : ValidatorState :=
  { genesisState with record_merkle_commitment := ⟨20, 1, 5⟩ }

/-- A mint note spending nullifier 7 with outputs 21, 22 against the genesis
root. -/
def wMint : TransactionNote := .Mint ⟨7, 21, 22, 0⟩

/-- A single-mint block. -/
def wBlock : Block := ⟨[wMint]⟩

/-- One non-membership proof for the mint's one nullifier. -/
def wPfs : List (List SetMerkleProof) := [[5]]

/-- A transfer note with one input nullifier and one output against the
genesis root. -/
def c3Note : TransactionNote := .Transfer ⟨[3], [4], 0, 0⟩

/-- A transfer note whose declared Merkle root (999) is neither the current
root nor a past root. -/
def c6Note : TransactionNote := .Transfer ⟨[3], [4], 999, 0⟩

/-- A `(3, 3)` transfer note; `wVerifCRS.xfr` has no key of that size. -/
def c2Note : TransactionNote := .Transfer ⟨[3, 4, 5], [6, 7, 8], 0, 0⟩

/-- The key list for the `KeySet` witness: arities (2,2) and (3,3). -/
def lW : List SizedVKey := [⟨2, 2, 1⟩, ⟨3, 3, 2⟩]

/-- The `KeySet` that `KeySet.new orderByInputs lW` produces. -/
def ksW : KeySet := ⟨[((2, 2), ⟨2, 2, 1⟩), ((3, 3), ⟨3, 3, 2⟩)]⟩

/-- C10: cloning a `ValidationError` maps the `CryptoError` variant to
`Failed` (it is not the identity there, the inner error is discarded), and is
the identity on every other variant. -/
theorem validation_error_clone_spec (p : CryptoErrPayload) (v : ValidationError)
    (hv : ∀ q, v ≠ .CryptoError q) :
    (ValidationError.CryptoError p).clone = .Failed ∧
    (ValidationError.CryptoError p).clone ≠ .CryptoError p ∧
    v.clone = v := by
  refine ⟨rfl, by simp [ValidationError.clone], ?_⟩
  cases v <;> first | rfl | exact absurd rfl (hv _)

/-- Witness for C10 at a concrete payload and a concrete non-`CryptoError`
variant. -/
theorem validation_error_clone_spec_witness :
    (ValidationError.CryptoError (.Ok 3)).clone = .Failed ∧
    (ValidationError.CryptoError (.Ok 3)).clone ≠ .CryptoError (.Ok 3) ∧
    (ValidationError.BadMerkleRoot).clone = .BadMerkleRoot :=
  validation_error_clone_spec (.Ok 3) .BadMerkleRoot (by intro q; simp)

/-- C9: `ValidatorState` equality is defined by the state commitment alone
(`a == b` iff `a.commit() == b.commit()`), and equal commitments yield equal
hashes. -/
theorem validator_eq_by_commit (a b : ValidatorState) :
    (ValidatorState.beq a b = true ↔ a.commit = b.commit) ∧
    (a.commit = b.commit → a.hashState = b.hashState) := by
  constructor
  · simp [ValidatorState.beq]
  · intro h
    simp [ValidatorState.hashState, h]

/-- Witness for C9 at two concrete (equal-commitment) states. -/
theorem validator_eq_by_commit_witness :
    ValidatorState.beq genesisState genesisState = true :=
  (validator_eq_by_commit genesisState genesisState).1.mpr rfl

/-- C8: `validate_and_apply` is deterministic — applying the same
`(now, block, proofs)` to a state and to a clone of it yields identical
post-states, results, and post-state commitments (the embedded transition is
a pure function of its inputs). -/
theorem validate_and_apply_deterministic (env : CryptoEnv) (s : ValidatorState) (now : Nat)
    (txns : Block) (null_pfs : List (List SetMerkleProof)) :
    validate_and_apply env s.clone now txns null_pfs =
      validate_and_apply env s now txns null_pfs ∧
    (validate_and_apply env s.clone now txns null_pfs).1.commit =
      (validate_and_apply env s now txns null_pfs).1.commit :=
  ⟨rfl, rfl⟩


/-- `validate_block_check` threads its inputs through unchanged on success. -/
theorem validate_block_check_ok_eq (env : CryptoEnv) (s : ValidatorState) (now : Nat)
    (txns : Block) (null_pfs : List (List SetMerkleProof)) (x : Block × List (List SetMerkleProof))
    (h : validate_block_check env s now txns null_pfs = .ok x) : x = (txns, null_pfs) := by
  unfold validate_block_check at h
  repeat' split at h
  all_goals simp_all

/-- C1 counterexample: on a state whose frontier is inconsistent with its
record Merkle commitment, `validate_and_apply` of an empty block at `now = 1`
returns `BadMerklePath` *after* having set `prev_commit_time := 1` — the
error does not happen before the first state mutation. -/
theorem validate_and_apply_mutates_before_error :
    (validate_and_apply defaultEnv c1State 1 ⟨[]⟩ []).2 = .error .BadMerklePath ∧
    (validate_and_apply defaultEnv c1State 1 ⟨[]⟩ []).1.prev_commit_time = 1 ∧
    c1State.prev_commit_time = 0 := by decide

/-- C1 (amended): every error surfaced by the validation phase
(`validate_block_check`) happens before the first state mutation — on such an
error `validate_and_apply` returns the untouched state; only the later
`multi_insert` (`BadNullifierProof`) and `restore_from_frontier`
(`BadMerklePath`) errors can follow a mutation. -/
theorem validate_error_no_mutation (env : CryptoEnv) (s : ValidatorState) (now : Nat)
    (txns : Block) (null_pfs : List (List SetMerkleProof)) (e : ValidationError)
    (h : validate_block_check env s now txns null_pfs = .error e) :
    validate_and_apply env s now txns null_pfs = (s, .error e) := by
  unfold validate_and_apply
  rw [h]

/-- Witness for the amended C1: a `BadMerkleRoot` failure from validation
leaves the state untouched. -/
theorem validate_error_no_mutation_witness :
    validate_and_apply defaultEnv genesisState 1 ⟨[c6Note]⟩ [[8]] =
      (genesisState, .error .BadMerkleRoot) :=
  validate_error_no_mutation defaultEnv genesisState 1 ⟨[c6Note]⟩ [[8]] .BadMerkleRoot (by decide)

/-- C2: if `validate_and_apply` returns an error other than
`BadNullifierProof` (the `multi_insert` error) and `BadMerklePath` (the
`restore_from_frontier` error) — i.e. anything outside the post-validation
window — the state is bit-identical to its pre-call value. -/
theorem validate_and_apply_no_mutation (env : CryptoEnv) (s : ValidatorState) (now : Nat)
    (txns : Block) (null_pfs : List (List SetMerkleProof)) (e : ValidationError)
    (h : (validate_and_apply env s now txns null_pfs).2 = .error e)
    (h1 : e ≠ .BadNullifierProof) (h2 : e ≠ .BadMerklePath) :
    (validate_and_apply env s now txns null_pfs).1 = s := by
  unfold validate_and_apply at h ⊢
  split at h
  · rfl
  · dsimp only at h ⊢
    split at h
    · simp_all
    · split at h
      · simp_all
      · simp_all

/-- Witness for C2: an `UnsupportedTransferSize` failure leaves the state
bit-identical. -/
theorem validate_and_apply_no_mutation_witness :
    (validate_and_apply defaultEnv genesisState 1 ⟨[c2Note]⟩ [[9, 10, 11]]).1 = genesisState :=
  validate_and_apply_no_mutation defaultEnv genesisState 1 ⟨[c2Note]⟩ [[9, 10, 11]]
    (.UnsupportedTransferSize 3 3) (by decide) (by decide) (by decide)

/-- The uid vector produced by the output-append loop is the contiguous range
starting at the initial uid. -/
theorem pushAll_snd (outs : List Nat) : ∀ (tree : MerkleTree) (uid : Nat),
    (pushAll tree uid outs).2 = List.range' uid outs.length := by
  induction outs with
  | nil => intro tree uid; rfl
  | cons o rest ih =>
    intro tree uid
    simp [pushAll, ih, List.range'_succ]

/-- C4: a successful `validate_and_apply` returns exactly
`[L, L+1, ..., L+k-1]` where `L` is the pre-apply leaf count and `k` the
total number of output commitments of the block, in block order and
per-transaction output order — strictly monotonic and contiguous. -/
theorem validate_and_apply_uids (env : CryptoEnv) (s : ValidatorState) (now : Nat)
    (txns : Block) (null_pfs : List (List SetMerkleProof)) (uids : List Nat)
    (h : (validate_and_apply env s now txns null_pfs).2 = .ok uids) :
    uids = List.range' s.record_merkle_commitment.num_leaves
      (txns.notes.flatMap TransactionNote.output_commitments).length := by
  unfold validate_and_apply at h
  split at h
  · simp_all
  · rename_i tb pb heq
    have hx := validate_block_check_ok_eq env s now txns null_pfs (tb, pb) heq
    rw [Prod.ext_iff] at hx
    obtain ⟨hx1, hx2⟩ := hx
    dsimp only at h hx1
    subst hx1
    split at h
    · simp_all
    · split at h
      · simp_all
      · simp only [Except.ok.injEq] at h
        subst h
        exact (pushAll_snd _ _ _).symm ▸ rfl

/-- Witness for C4: the single-mint apply on genesis assigns uids `[0, 1]`,
which is the contiguous range from the pre-apply leaf count 0. -/
theorem validate_and_apply_uids_witness :
    List.range' genesisState.record_merkle_commitment.num_leaves
      (wBlock.notes.flatMap TransactionNote.output_commitments).length = [0, 1] :=
  (validate_and_apply_uids defaultEnv genesisState 1 wBlock wPfs [0, 1] (by decide)).symm

/-- C5: after a successful `validate_and_apply` the history queue is the
pre-apply `record_merkle_commitment.root_value` pushed to the front, with the
oldest (back) entry evicted exactly when the queue was at capacity
(`RECORD_ROOT_HISTORY_SIZE = 10`); and on every outcome the length bound
`len ≤ 10` is preserved. -/
theorem validate_and_apply_history (env : CryptoEnv) (s : ValidatorState) (now : Nat)
    (txns : Block) (null_pfs : List (List SetMerkleProof)) :
    ((validate_and_apply env s now txns null_pfs).2.isOk = true →
      (validate_and_apply env s now txns null_pfs).1.past_record_merkle_roots =
        s.record_merkle_commitment.root_value ::
          (if RECORD_ROOT_HISTORY_SIZE ≤ s.past_record_merkle_roots.length
           then s.past_record_merkle_roots.dropLast
           else s.past_record_merkle_roots)) ∧
    (s.past_record_merkle_roots.length ≤ RECORD_ROOT_HISTORY_SIZE →
      (validate_and_apply env s now txns null_pfs).1.past_record_merkle_roots.length ≤
        RECORD_ROOT_HISTORY_SIZE) := by
  unfold validate_and_apply
  split
  · constructor
    · intro hh; simp [Except.isOk, Except.toBool] at hh
    · intro hlen; exact hlen
  · dsimp only
    split
    · constructor
      · intro hh; simp [Except.isOk, Except.toBool] at hh
      · intro hlen; exact hlen
    · split
      · constructor
        · intro hh; simp [Except.isOk, Except.toBool] at hh
        · intro hlen; exact hlen
      · constructor
        · intro _
          rfl
        · intro hlen
          dsimp only
          split
          · rename_i hge
            simp only [List.length_cons, List.length_dropLast]
            simp only [RECORD_ROOT_HISTORY_SIZE] at hge hlen ⊢
            omega
          · rename_i hlt
            simp only [List.length_cons]
            simp only [RECORD_ROOT_HISTORY_SIZE] at hlt hlen ⊢
            omega

/-- Witness for C5: the single-mint apply on genesis leaves the history
holding exactly the pre-apply root, length 1 ≤ 10. -/
theorem validate_and_apply_history_witness :
    (validate_and_apply defaultEnv genesisState 1 wBlock wPfs).1.past_record_merkle_roots =
      [genesisState.record_merkle_commitment.root_value] := by
  have h := (validate_and_apply_history defaultEnv genesisState 1 wBlock wPfs).1 (by decide)
  simpa [RECORD_ROOT_HISTORY_SIZE, genesisState, ValidatorState.new, genesisTree] using h

/-- The nullifier loop only produces `NullifierAlreadyExists` and
`BadNullifierProof`. -/
theorem checkNullifiers_ne_missing (env : CryptoEnv) (root : Nat)
    (pairs : List (SetMerkleProof × Nat)) : ∀ nulls,
    checkNullifiers env root pairs nulls ≠ .error .MissingNullifierProof := by
  induction pairs with
  | nil => intro nulls; simp [checkNullifiers]
  | cons p rest ih =>
    intro nulls
    obtain ⟨pf, n⟩ := p
    simp only [checkNullifiers]
    split
    · simp
    · split
      · simp
      · simp
      · exact ih _

/-- Key selection only produces `UnsupportedTransferSize` and
`UnsupportedFreezeSize`. -/
theorem selectKey_ne_missing (s : ValidatorState) (t : TransactionNote) :
    selectKey s t ≠ .error .MissingNullifierProof := by
  cases t <;> simp only [selectKey]
  · simp
  · split <;> simp
  · split <;> simp

/-- Lifting `selectKey_ne_missing` through the collect loop. -/
theorem selectKeys_ne_missing (s : ValidatorState) (notes : List TransactionNote) :
    selectKeys s notes ≠ .error .MissingNullifierProof := by
  induction notes with
  | nil => simp [selectKeys]
  | cons t rest ih =>
    simp only [selectKeys]
    split
    · rename_i e heq
      intro hc
      injection hc with hc
      exact absurd (hc ▸ heq) (selectKey_ne_missing s t)
    · split
      · rename_i e heq
        intro hc
        injection hc with hc
        exact absurd (hc ▸ heq) ih
      · simp

/-- Root collection only produces `BadMerkleRoot`. -/
theorem computeRoots_ne_missing (s : ValidatorState) (notes : List TransactionNote) :
    computeRoots s notes ≠ .error .MissingNullifierProof := by
  induction notes with
  | nil => simp [computeRoots]
  | cons t rest ih =>
    simp only [computeRoots]
    split
    · split
      · rename_i e heq
        intro hc
        injection hc with hc
        exact absurd (hc ▸ heq) ih
      · simp
    · simp

/-- C3 (amended): `validate_block_check` performs no proof-shape check at
all — the proof vectors are zipped against the nullifier lists, surplus
entries on either side are silently dropped, and `MissingNullifierProof` is
never returned, for any environment and any input. -/
theorem validate_block_check_never_missing (env : CryptoEnv) (s : ValidatorState) (now : Nat)
    (txns : Block) (null_pfs : List (List SetMerkleProof)) :
    validate_block_check env s now txns null_pfs ≠ .error .MissingNullifierProof := by
  unfold validate_block_check
  split
  · rename_i e heq
    intro hc
    injection hc with hc
    exact absurd (hc ▸ heq)
      (checkNullifiers_ne_missing env s.nullifiers_root (flattenPairs null_pfs txns.notes) [])
  · split
    · rename_i e heq
      intro hc
      injection hc with hc
      exact absurd (hc ▸ heq) (selectKeys_ne_missing s txns.notes)
    · split
      · simp
      · split
        · rename_i e heq
          intro hc
          injection hc with hc
          exact absurd (hc ▸ heq) (computeRoots_ne_missing s txns.notes)
        · split <;> simp

/-- C3 counterexample: a block whose single transaction has one nullifier but
whose proof vector is empty (shapes disagree) is *accepted* by
`validate_block_check` — the unmatched nullifier is silently skipped rather
than rejected with `MissingNullifierProof`. -/
theorem shape_mismatch_not_rejected :
    (Block.notes ⟨[c3Note]⟩).map (fun t => t.nullifiers.length) = [1] ∧
    ([[]] : List (List SetMerkleProof)).map List.length = [0] ∧
    validate_block_check defaultEnv genesisState 1 ⟨[c3Note]⟩ [[]] =
      .ok (⟨[c3Note]⟩, [[]]) := by decide

/-- If every note's declared root is eligible, root collection succeeds with
the roots in block order. -/
theorem computeRoots_ok_of_all (s : ValidatorState) (notes : List TransactionNote)
    (h : ∀ t ∈ notes, rootEligible s t = true) :
    computeRoots s notes = .ok (notes.map TransactionNote.merkle_root) := by
  induction notes with
  | nil => rfl
  | cons t rest ih =>
    have ht := h t (List.mem_cons_self t rest)
    have hr := ih (fun x hx => h x (List.mem_cons_of_mem t hx))
    simp [computeRoots, ht, hr]

/-- If some note's declared root is ineligible, root collection fails with
`BadMerkleRoot`. -/
theorem computeRoots_err_of_exists (s : ValidatorState) (notes : List TransactionNote)
    (h : ∃ t ∈ notes, rootEligible s t = false) :
    computeRoots s notes = .error .BadMerkleRoot := by
  induction notes with
  | nil => simp at h
  | cons t rest ih =>
    obtain ⟨x, hx, hxe⟩ := h
    rcases List.mem_cons.mp hx with h1 | h1
    · subst h1
      simp [computeRoots, hxe]
    · by_cases ht : rootEligible s t = true
      · simp [computeRoots, ht, ih ⟨x, h1, hxe⟩]
      · rw [Bool.not_eq_true] at ht
        simp [computeRoots, ht]

/-- C6: for a non-empty block that passed the nullifier and key-selection
phases, `validate_block_check` accepts each note's declared `merkle_root` iff
it equals the current `record_merkle_commitment.root_value` or occurs in
`past_record_merkle_roots`: if all roots are eligible the result is success
or a batch-verification `CryptoError`, never `BadMerkleRoot`; if any root is
ineligible the result is exactly `BadMerkleRoot` (so `BadMerkleRoot` is
decided before any `CryptoError` can be reported). -/
theorem validate_block_check_merkle_root (env : CryptoEnv) (s : ValidatorState) (now : Nat)
    (txns : Block) (null_pfs : List (List SetMerkleProof)) (ks : List SizedVKey)
    (hne : txns.notes ≠ [])
    (hnull : checkNullifiers env s.nullifiers_root (flattenPairs null_pfs txns.notes) [] = .ok ())
    (hkeys : selectKeys s txns.notes = .ok ks) :
    ((∀ t ∈ txns.notes, rootEligible s t = true) →
      validate_block_check env s now txns null_pfs ≠ .error .BadMerkleRoot ∧
      (validate_block_check env s now txns null_pfs = .ok (txns, null_pfs) ∨
        ∃ e, validate_block_check env s now txns null_pfs = .error (.CryptoError (.Ok e)))) ∧
    ((∃ t ∈ txns.notes, rootEligible s t = false) →
      validate_block_check env s now txns null_pfs = .error .BadMerkleRoot) := by
  have hE : txns.notes.isEmpty = false := by
    cases h : txns.notes with
    | nil => exact absurd h hne
    | cons a l => rfl
  unfold validate_block_check
  simp only [hnull, hkeys, hE, Bool.false_eq_true, if_false]
  constructor
  · intro hall
    simp only [computeRoots_ok_of_all s txns.notes hall]
    split
    · rename_i err heq
      exact ⟨by simp, .inr ⟨err, rfl⟩⟩
    · exact ⟨by simp, .inl rfl⟩
  · intro hex
    simp only [computeRoots_err_of_exists s txns.notes hex]

/-- Witness for C6: a transfer whose declared root 999 is neither current nor
past fails with `BadMerkleRoot`. -/
theorem validate_block_check_merkle_root_witness :
    validate_block_check defaultEnv genesisState 1 ⟨[c6Note]⟩ [[8]] = .error .BadMerkleRoot :=
  (validate_block_check_merkle_root defaultEnv genesisState 1 ⟨[c6Note]⟩ [[8]] [⟨1, 1, 5⟩]
    (by decide) (by decide) (by decide)).2 ⟨c6Note, by decide, by decide⟩

/-- The map invariant: entries strictly ascending in the sort key. -/
def ksSorted (l : KSMap) : Prop := l.Pairwise (fun a b => skLt a.1 b.1 = true)

/-- The map invariant: each entry is keyed by the sort key of its own arity. -/
def ksCoherent (ord : Nat → Nat → SK) (l : KSMap) : Prop :=
  ∀ p ∈ l, p.1 = ord p.2.num_inputs p.2.num_outputs

/-- Reflexivity of the lexicographic order. -/
theorem skLe_refl (a : SK) : skLe a a = true := by simp [skLe]

/-- Strict implies non-strict. -/
theorem skLe_of_skLt {a b : SK} (h : skLt a b = true) : skLe a b = true := by
  simp [skLt] at h
  simp [skLe]
  omega

/-- Transitivity of the strict lexicographic order. -/
theorem skLt_trans {a b c : SK} (h1 : skLt a b = true) (h2 : skLt b c = true) :
    skLt a c = true := by
  simp [skLt] at *
  omega

/-- Totality: two distinct sort keys compare strictly one way or the other. -/
theorem skLt_of_not_skLt_of_ne {a b : SK} (h1 : skLt a b = false) (h2 : a ≠ b) :
    skLt b a = true := by
  have h3 : a.1 ≠ b.1 ∨ a.2 ≠ b.2 := by
    by_contra hc
    push_neg at hc
    exact h2 (Prod.ext_iff.mpr ⟨hc.1, hc.2⟩)
  simp [skLt] at h1 ⊢
  omega

/-- A negative `contains_key` answer means no entry carries the key. -/
theorem ksContains_false {sk : SK} {l : KSMap} (h : ksContains sk l = false) :
    ∀ p ∈ l, p.1 ≠ sk := by
  intro p hp
  obtain ⟨⟨pa, pb⟩, p2⟩ := p
  simp [ksContains, List.any_eq_false] at h
  exact h pa pb p2 hp

/-- Membership after insertion. -/
theorem ksInsert_mem {sk : SK} {k : SizedVKey} {l : KSMap} {p : SK × SizedVKey} :
    p ∈ ksInsert sk k l ↔ p = (sk, k) ∨ p ∈ l := by
  induction l with
  | nil => simp [ksInsert]
  | cons a rest ih =>
    simp only [ksInsert]
    split
    · simp [List.mem_cons]
    · simp only [List.mem_cons, ih]
      tauto

/-- Inserting a fresh key preserves sortedness. -/
theorem ksInsert_sorted {sk : SK} {k : SizedVKey} {l : KSMap} (h : ksSorted l)
    (hf : ∀ p ∈ l, p.1 ≠ sk) : ksSorted (ksInsert sk k l) := by
  induction l with
  | nil => simp [ksInsert, ksSorted]
  | cons a rest ih =>
    rw [ksSorted, List.pairwise_cons] at h
    obtain ⟨ha, hrest⟩ := h
    simp only [ksInsert]
    split
    · rename_i hlt
      rw [ksSorted, List.pairwise_cons]
      refine ⟨?_, List.pairwise_cons.mpr ⟨ha, hrest⟩⟩
      intro b hb
      rcases List.mem_cons.mp hb with h1 | h1
      · subst h1; exact hlt
      · exact skLt_trans hlt (ha b h1)
    · rename_i hnlt
      rw [Bool.not_eq_true] at hnlt
      rw [ksSorted, List.pairwise_cons]
      constructor
      · intro b hb
        rcases ksInsert_mem.mp hb with h1 | h1
        · subst h1
          exact skLt_of_not_skLt_of_ne hnlt (Ne.symm (hf a (List.mem_cons_self a rest)))
        · exact ha b h1
      · exact ih hrest (fun p hp => hf p (List.mem_cons_of_mem a hp))

/-- The `KeySet::new` loop preserves sortedness and key/arity coherence. -/
theorem newAux_inv (ord : Nat → Nat → SK) (rest : List SizedVKey) :
    ∀ acc m, ksSorted acc → ksCoherent ord acc →
      KeySet.newAux ord rest acc = .ok m → ksSorted m ∧ ksCoherent ord m := by
  induction rest with
  | nil =>
    intro acc m h1 h2 h3
    simp only [KeySet.newAux, Except.ok.injEq] at h3
    subst h3
    exact ⟨h1, h2⟩
  | cons k r ih =>
    intro acc m h1 h2 h3
    simp only [KeySet.newAux] at h3
    split at h3
    · cases h3
    · rename_i hc
      rw [Bool.not_eq_true] at hc
      refine ih _ m ?_ ?_ h3
      · exact ksInsert_sorted h1 (ksContains_false hc)
      · intro p hp
        rcases ksInsert_mem.mp hp with hp1 | hp1
        · subst hp1; rfl
        · exact h2 p hp1

/-- A `KeySet` built by `new` is sorted, coherent, and non-empty. -/
theorem new_inv (ord : Nat → Nat → SK) (l : List SizedVKey) (ks : KeySet)
    (h : KeySet.new ord l = .ok ks) :
    ksSorted ks.keys ∧ ksCoherent ord ks.keys ∧ ks.keys ≠ [] := by
  unfold KeySet.new at h
  split at h
  · cases h
  · rename_i m hm
    split at h
    · cases h
    · rename_i hne
      injection h with h
      subst h
      have hinv := newAux_inv ord l [] m (by simp [ksSorted]) (by intro p hp; simp at hp) hm
      refine ⟨hinv.1, hinv.2, ?_⟩
      cases m with
      | nil => simp at hne
      | cons a r => simp

/-- On a sorted map, `find?` of the first entry satisfying a monotone
threshold returns the minimum satisfying entry. -/
theorem find_sorted_min {l : KSMap} {req : SK} {x : SK × SizedVKey} (h : ksSorted l)
    (hf : l.find? (fun p => skLe req p.1) = some x) :
    x ∈ l ∧ skLe req x.1 = true ∧
      ∀ p ∈ l, skLe req p.1 = true → skLe x.1 p.1 = true := by
  induction l with
  | nil => simp at hf
  | cons a rest ih =>
    rw [ksSorted, List.pairwise_cons] at h
    obtain ⟨ha, hrest⟩ := h
    by_cases hp : skLe req a.1 = true
    · simp only [List.find?, hp] at hf
      injection hf with hf
      subst hf
      refine ⟨List.mem_cons_self a rest, hp, ?_⟩
      intro p hpm hple
      rcases List.mem_cons.mp hpm with h1 | h1
      · subst h1; exact skLe_refl _
      · exact skLe_of_skLt (ha p h1)
    · have hp2 : skLe req a.1 = false := by simpa using hp
      simp only [List.find?, hp2] at hf
      obtain ⟨hmem, hle, hmin⟩ := ih hrest hf
      refine ⟨List.mem_cons_of_mem a hmem, hle, ?_⟩
      intro p hpm hple
      rcases List.mem_cons.mp hpm with h1 | h1
      · subst h1; exact absurd hple hp
      · exact hmin p h1 hple

/-- On a sorted map the last entry carries the maximum sort key. -/
theorem getLast_mem_max {l : KSMap} {m : SK × SizedVKey} (h : ksSorted l)
    (hl : l.getLast? = some m) : m ∈ l ∧ ∀ p ∈ l, skLe p.1 m.1 = true := by
  induction l with
  | nil => simp at hl
  | cons a rest ih =>
    rw [ksSorted, List.pairwise_cons] at h
    obtain ⟨ha, hrest⟩ := h
    cases rest with
    | nil =>
      have ha2 : a = m := by simpa using hl
      subst ha2
      refine ⟨List.mem_cons_self a [], ?_⟩
      intro p hp
      rcases List.mem_cons.mp hp with h1 | h1
      · subst h1; exact skLe_refl _
      · simp at h1
    | cons b r2 =>
      have hl2 : (b :: r2).getLast? = some m := by rwa [List.getLast?_cons_cons] at hl
      have hres := ih hrest hl2
      refine ⟨List.mem_cons_of_mem a hres.1, ?_⟩
      intro p hp
      rcases List.mem_cons.mp hp with h1 | h1
      · subst h1
        exact skLe_of_skLt (ha m hres.1)
      · exact hres.2 p h1

/-- A non-empty list has a last element. -/
theorem getLast_of_ne_nil {l : KSMap} (h : l ≠ []) : ∃ m, l.getLast? = some m :=
  ⟨l.getLast h, List.getLast?_eq_getLast l h⟩

/-- C7: for a `KeySet` built by `new` (hence non-empty), `best_fit_key`
returns the key whose sort key is the minimum one `>=` the requested sort key
under the configured order (together with its own arity), and on a miss the
error payload is exactly `max_size()` — the arity of the maximal sort key,
i.e. the largest supported arity. -/
theorem keyset_best_fit_spec (ord : Nat → Nat → SK) (l : List SizedVKey) (ks : KeySet)
    (hnew : KeySet.new ord l = .ok ks) (ni no : Nat) :
    (∀ ni2 no2 k, ks.best_fit_key ord ni no = .ok (ni2, no2, k) →
      (ord ni2 no2, k) ∈ ks.keys ∧ ni2 = k.num_inputs ∧ no2 = k.num_outputs ∧
      skLe (ord ni no) (ord ni2 no2) = true ∧
      (∀ p ∈ ks.keys, skLe (ord ni no) p.1 = true → skLe (ord ni2 no2) p.1 = true)) ∧
    (∀ mi mo, ks.best_fit_key ord ni no = .error (mi, mo) →
      (mi, mo) = ks.max_size ∧ (∀ p ∈ ks.keys, skLe (ord ni no) p.1 = false) ∧
      ∃ km, (ord mi mo, km) ∈ ks.keys ∧ mi = km.num_inputs ∧ mo = km.num_outputs ∧
        (∀ p ∈ ks.keys, skLe p.1 (ord mi mo) = true)) := by
  obtain ⟨hs, hco, hne⟩ := new_inv ord l ks hnew
  constructor
  · intro ni2 no2 k hok
    unfold KeySet.best_fit_key at hok
    split at hok
    · rename_i p hf
      simp only [Except.ok.injEq, Prod.mk.injEq] at hok
      obtain ⟨h1, h2, h3⟩ := hok
      subst h1
      subst h2
      subst h3
      obtain ⟨hmem, hle, hmin⟩ := find_sorted_min hs hf
      have hcop := hco p hmem
      refine ⟨?_, rfl, rfl, ?_, ?_⟩
      · rw [← hcop]
        exact hmem
      · rw [← hcop]
        exact hle
      · intro q hq hqle
        rw [← hcop]
        exact hmin q hq hqle
    · cases hok
  · intro mi mo herr
    unfold KeySet.best_fit_key at herr
    split at herr
    · cases herr
    · rename_i hf
      simp only [Except.error.injEq] at herr
      obtain ⟨m, hm⟩ := getLast_of_ne_nil hne
      obtain ⟨hmmem, hmax⟩ := getLast_mem_max hs hm
      have hms : ks.max_size = (m.2.num_inputs, m.2.num_outputs) := by
        unfold KeySet.max_size
        rw [hm]
      have hcom := hco m hmmem
      have hmimo : mi = m.2.num_inputs ∧ mo = m.2.num_outputs := by
        have := hms ▸ herr
        simp only [Prod.mk.injEq] at this
        exact ⟨this.1.symm, this.2.symm⟩
      refine ⟨herr.symm, ?_, m.2, ?_, hmimo.1, hmimo.2, ?_⟩
      · intro p hp
        have hnp := List.find?_eq_none.mp hf p hp
        simpa using hnp
      · rw [hmimo.1, hmimo.2, ← hcom]
        exact hmmem
      · intro p hp
        rw [hmimo.1, hmimo.2, ← hcom]
        exact hmax p hp

/-- Witness for C7: with transfer keys of arities (2,2) and (3,3), a (4,4)
request misses and reports (3,3), the maximum size. -/
theorem keyset_best_fit_spec_witness :
    KeySet.best_fit_key orderByInputs ksW 4 4 = .error (3, 3) ∧ (3, 3) = ksW.max_size := by
  have h := (keyset_best_fit_spec orderByInputs lW ksW (by decide) 4 4).2 3 3 (by decide)
  exact ⟨by decide, h.1⟩
